import Mathlib

/-!
# Verification of the schedule-text parser of `time-planner-backend`

This file shallowly embeds the core logic of `src/server.js`:

* `toISOdate` (line 27): `(d) => d.toISOString().split("T")[0]`,
* `parsePlanText` (lines 29–51): the line-oriented scan that turns the
  LLM plan text plus a reference `Date` into `{task, duration, date}` records.

Modelling conventions:

* JS strings are `List Char`; the public entry point takes a `String`.
* A JS `Date` is its time value: an `Int` count of milliseconds since the
  Unix epoch.  The host environment's (fixed, DST-free) timezone offset in
  minutes is passed explicitly as `tz`; `getDate`/`setDate` operate on local
  time `t + tz*60000`, `toISOString` always formats UTC fields, exactly as
  ECMA-262 specifies.
* Time values are clipped to `|t| ≤ 8.64e15`; `Date.prototype.toISOString`
  throws a `RangeError` on an out-of-range time value, so the model of
  `toISOdate` returns `Option String` and `parsePlanText` returns
  `Option (List Entry)` (`none` = the JS function throws).
* JS number results of `parseFloat` are modelled exactly as `Option ℚ`
  (`none` = `NaN`); double rounding/overflow-to-Infinity is outside the model.
* The two regexes `/^DAY\s*(\d+)/i` and `/^[\-•]\s*(.+?)\s*@\s*([\d\.]+)/`
  are modelled by direct backtracking matchers that follow the JS
  (leftmost, greedy-longest-first / lazy-shortest-first) search order.
-/

/-! ## JS character classes, `trim`, and line splitting -/

/-- The ECMAScript `\s` / `String.prototype.trim` whitespace class
(WhiteSpace ∪ LineTerminator). -/
def isJsSpace (c : Char) : Bool :=
  c.val = 32 || c.val = 9 || c.val = 10 || c.val = 11 || c.val = 12 ||
  c.val = 13 || c.val = 160 || c.val = 0x1680 ||
  (0x2000 ≤ c.val && c.val ≤ 0x200A) ||
  c.val = 0x2028 || c.val = 0x2029 || c.val = 0x202F || c.val = 0x205F ||
  c.val = 0x3000 || c.val = 0xFEFF

/-- ECMAScript LineTerminator: the characters `.` does not match. -/
def isLineTerm (c : Char) : Bool :=
  c.val = 10 || c.val = 13 || c.val = 0x2028 || c.val = 0x2029

/-- `String.prototype.trim`. -/
def jsTrim (l : List Char) : List Char :=
  ((l.dropWhile isJsSpace).reverse.dropWhile isJsSpace).reverse

/-- Prepend a character to the first line of a non-empty line list. -/
def consHead (c : Char) : List (List Char) → List (List Char)
  | [] => [[c]]
  | l :: ls => (c :: l) :: ls

/-- `planText.split(/\r?\n/)`: split on `"\r\n"` or `"\n"`; a lone `'\r'`
is an ordinary character. -/
def splitLines : List Char → List (List Char)
  | [] => [[]]
  | '\r' :: '\n' :: rest => [] :: splitLines rest
  | c :: rest =>
    if c = '\n' then [] :: splitLines rest
    else consHead c (splitLines rest)

/-! ## Proleptic Gregorian calendar arithmetic

Day numbers count days since the Unix epoch 1970-01-01.  The conversions
are the standard era-based civil-calendar algorithms; ECMA-262's
`YearFromTime`/`MonthFromTime`/`DateFromTime`/`MakeDay` compute the same
(extensional) proleptic Gregorian correspondence. -/

/-- Day-of-era of the first day of year-of-era `yoe ∈ [0,399]`. -/
def ysOf (yoe : Nat) : Nat := 365 * yoe + yoe / 4 - yoe / 100

/-- Year-of-era (years counted from March 1) of day-of-era `doe ∈ [0,146096]`. -/
def yoeOf (doe : Nat) : Nat :=
  (doe - doe / 1460 + doe / 36524 - doe / 146096) / 365

/-- Day of the (March-based) year for a day-of-era. -/
def doyOf (doe : Nat) : Nat := doe - ysOf (yoeOf doe)

/-- March-based month index `∈ [0,11]` for a day-of-era. -/
def mpOf (doe : Nat) : Nat := (5 * doyOf doe + 2) / 153

/-- Day of month `∈ [1,31]` for a day-of-era. -/
def domOf (doe : Nat) : Nat := doyOf doe - (153 * mpOf doe + 2) / 5 + 1

/-- Civil month `∈ [1,12]` for a day-of-era. -/
def monthOf (doe : Nat) : Nat :=
  if mpOf doe < 10 then mpOf doe + 3 else mpOf doe - 9

/-- A civil (year, month, day) triple. -/
structure Civil where
  y : Int
  m : Nat
  d : Nat
  deriving DecidableEq, Repr

/-- Civil date of an epoch day number. -/
def civilFromDays (z : Int) : Civil :=
  let zz := z + 719468
  let era := zz / 146097
  let doe := (zz % 146097).toNat
  { y := era * 400 + yoeOf doe + (if monthOf doe ≤ 2 then 1 else 0)
    m := monthOf doe
    d := domOf doe }

/-- Epoch day number of a civil date (day-of-month may exceed the month
length, matching ECMA `MakeDay`'s behaviour on such inputs). -/
def daysFromCivil (c : Civil) : Int :=
  let y' : Int := c.y - (if c.m ≤ 2 then 1 else 0)
  let era := y' / 400
  let yoe := (y' % 400).toNat
  let mp : Nat := if 2 < c.m then c.m - 3 else c.m + 9
  let doy : Nat := (153 * mp + 2) / 5
  era * 146097 + (ysOf yoe + doy : Nat) + (c.d : Int) - 1 - 719468

/-- Milliseconds per day. -/
def msPerDay : Int := 86400000

/-- Largest representable `Date` time value (`8.64e15` ms). -/
def maxTimeValue : Int := 8640000000000000

/-- The local civil date of time value `t` under offset `tz` minutes. -/
def jsLocalCivil (t tz : Int) : Civil :=
  civilFromDays ((t + tz * 60000) / msPerDay)

/-- `d.getDate()`: local day of month. -/
def jsGetDate (t tz : Int) : Int := (jsLocalCivil t tz).d

/-- `d.setDate(n)`: the new time value, before range clipping
(`MakeDate(MakeDay(localYear, localMonth, n), TimeWithinDay(local)) - tzOffset`). -/
def jsSetDate (t tz n : Int) : Int :=
  let loc := t + tz * 60000
  let c := civilFromDays (loc / msPerDay)
  (daysFromCivil { c with d := 1 } + (n - 1)) * msPerDay
    + loc % msPerDay - tz * 60000

/-- Two decimal digits with a leading zero. -/
def twoDigits (n : Nat) : List Char :=
  [Char.ofNat (48 + n / 10 % 10), Char.ofNat (48 + n % 10)]

/-- A natural number as exactly `w` decimal digits (leading zeros). -/
def padDigits (w n : Nat) : List Char :=
  (List.range w).reverse.map (fun i => Char.ofNat (48 + n / 10 ^ i % 10))

/-- The date part of ECMA `toISOString`: years `0..9999` print as four
digits, other years in the signed six-digit expanded form. -/
def formatCivil (c : Civil) : String :=
  let yearPart :=
    if c.y < 0 then '-' :: padDigits 6 (-c.y).toNat
    else if c.y ≤ 9999 then padDigits 4 c.y.toNat
    else '+' :: padDigits 6 c.y.toNat
  ⟨yearPart ++ '-' :: twoDigits c.m ++ '-' :: twoDigits c.d⟩

/-- `toISOdate` (line 27): `d.toISOString().split("T")[0]`.  `toISOString`
formats the UTC fields of the time value and throws (`none`) on an invalid
(out-of-range) time value. -/
def toISOdate (t : Int) : Option String :=
  if t.natAbs ≤ 8640000000000000 then
    some (formatCivil (civilFromDays (t / msPerDay)))
  else none

/-! ## The two line regexes -/

/-- Digit-string value (the regex guarantees only digits, so
`parseInt(s, 10)` is exact). -/
def natOfDigits (l : List Char) : Nat :=
  l.foldl (fun a c => a * 10 + (c.val.toNat - 48)) 0

/-- `/^DAY\s*(\d+)/i`: case-insensitive `DAY`, optional whitespace, a digit
run; trailing characters are unconstrained.  Returns the captured number. -/
def matchDayLine (line : List Char) : Option Nat :=
  match line with
  | c0 :: c1 :: c2 :: rest =>
    if c0.toLower = 'd' && c1.toLower = 'a' && c2.toLower = 'y' then
      let afterWs := rest.dropWhile isJsSpace
      let digits := afterWs.takeWhile Char.isDigit
      if digits.isEmpty then none else some (natOfDigits digits)
    else none
  | _ => none

/-- One character of the hours class `[\d\.]`. -/
def isDigitDot (c : Char) : Bool := c.isDigit || c = '.'

/-- The tail `\s*@\s*([\d\.]+)` of the task regex at the current
description split: the middle `\s*` must end exactly at an `@`. -/
def matchAfterDesc (rest : List Char) : Option (List Char) :=
  match rest.dropWhile isJsSpace with
  | '@' :: s4 =>
    let s5 := (s4.dropWhile isJsSpace)
    let tok := s5.takeWhile isDigitDot
    if tok.isEmpty then none else some tok
  | _ => none

/-- Lazy extension of the description capture `(.+?)`: try the current
(shortest-first) description, else grow it by one `.`-matchable character. -/
def findTaskMatch (desc rest : List Char) : Option (List Char × List Char) :=
  match matchAfterDesc rest with
  | some tok => some (desc, tok)
  | none =>
    match rest with
    | [] => none
    | ch :: rest' =>
      if isLineTerm ch then none
      else findTaskMatch (desc ++ [ch]) rest'

/-- Backtracking of the leading greedy `\s*` after the bullet: the engine
tries consuming `a` whitespace characters, largest `a` first. -/
def tryBulletWs (rest : List Char) : Nat → Option (List Char × List Char)
  | 0 =>
    (match rest with
     | c :: r' => if isLineTerm c then none else findTaskMatch [c] r'
     | [] => none)
  | a + 1 =>
    (match rest.drop (a + 1) with
     | c :: r' => if isLineTerm c then none else findTaskMatch [c] r'
     | [] => none) <|> tryBulletWs rest a

/-- `/^[\-•]\s*(.+?)\s*@\s*([\d\.]+)/`: on success, the description capture
and the hours token. -/
def matchTaskLine (line : List Char) : Option (List Char × List Char) :=
  match line with
  | b :: rest =>
    if b = '-' || b = '•' then
      tryBulletWs rest ((rest.takeWhile isJsSpace).length)
    else none
  | [] => none

/-- `parseFloat` on a token drawn from `[\d\.]+`: the longest numeric-literal
prefix, `none` for `NaN` (no leading digits and no digit after a leading
dot). -/
def jsParseFloatDD (token : List Char) : Option ℚ :=
  match token with
  | [] => none
  | c :: rest =>
    if c.isDigit then
      let ip := token.takeWhile Char.isDigit
      match token.dropWhile Char.isDigit with
      | '.' :: rest2 =>
        let fp := rest2.takeWhile Char.isDigit
        some (mkRat (Int.ofNat (natOfDigits ip * 10 ^ fp.length + natOfDigits fp))
          (10 ^ fp.length))
      | _ => some (mkRat (Int.ofNat (natOfDigits ip)) 1)
    else if c = '.' then
      if (rest.takeWhile Char.isDigit).isEmpty then none
      else some (mkRat (Int.ofNat (natOfDigits (rest.takeWhile Char.isDigit)))
        (10 ^ (rest.takeWhile Char.isDigit).length))
    else none

/-! ## The parser -/

/-- One output record of `parsePlanText`: `{ task, duration, date }`.
`duration = none` models a `NaN` duration. -/
structure Entry where
  task : String
  duration : Option ℚ
  date : String
  deriving DecidableEq, Repr

/-- The effect of one (already split) line on the parse: skip it, update
the `dayIndex` state, push one entry, or throw. -/
inductive LineEffect where
  | skip : LineEffect
  | setDay : Int → LineEffect
  | emit : Entry → LineEffect
  | throwErr : LineEffect
  deriving DecidableEq, Repr

/-- The `forEach` body of `parsePlanText` (lines 33–48) for one line, given
the current `dayIndex` (`-1` = no day seen): trim, skip empties, try the
day regex, then the task regex, and emit only when `dayIndex >= 0`.
`throwErr` = `toISOString` raised on an out-of-range date. -/
def lineEffect (t tz : Int) (l : List Char) (dayIndex : Int) : LineEffect :=
  if (jsTrim l).isEmpty then .skip
  else
    match matchDayLine (jsTrim l) with
    | some n => .setDay ((n : Int) - 1)
    | none =>
      match matchTaskLine (jsTrim l) with
      | some (desc, hours) =>
        if 0 ≤ dayIndex then
          match toISOdate (jsSetDate t tz (jsGetDate t tz + dayIndex)) with
          | some ds =>
            .emit { task := ⟨jsTrim desc⟩
                    duration := jsParseFloatDD hours
                    date := ds }
          | none => .throwErr
        else .skip
      | none => .skip

/-- The line fold of `parsePlanText`: thread the `dayIndex` state through
the lines, collecting entries in order.  `none` = the JS code throws. -/
def processLines (t tz : Int) : List (List Char) → Int → Option (List Entry)
  | [], _ => some []
  | l :: ls, dayIndex =>
    match lineEffect t tz l dayIndex with
    | .skip => processLines t tz ls dayIndex
    | .setDay d => processLines t tz ls d
    | .emit e => (processLines t tz ls dayIndex).map (e :: ·)
    | .throwErr => none

/-- `parsePlanText` (lines 29–51) for a reference time value `t` under the
environment offset `tz`. -/
def parsePlanText (planText : String) (t tz : Int) : Option (List Entry) :=
  processLines t tz (splitLines planText.data) (-1)

/-! ## Correctness of the calendar conversions

The key fact is that `daysFromCivil` inverts `civilFromDays`.  The only
part outside linear arithmetic is that `yoeOf` picks the correct
year-of-era; that is proved from monotonicity together with checks at the
400 year boundaries of one era. -/

/-- The inner expression of `yoeOf`. -/
def gFn (doe : Nat) : Nat := doe - doe / 1460 + doe / 36524 - doe / 146096

theorem yoeOf_eq (doe : Nat) : yoeOf doe = gFn doe / 365 := rfl

theorem gFn_step (n : Nat) : gFn n ≤ gFn (n + 1) := by
  unfold gFn; omega

theorem gFn_mono {a b : Nat} (h : a ≤ b) : gFn a ≤ gFn b := by
  induction h with
  | refl => exact Nat.le_refl _
  | step _ ih => exact Nat.le_trans ih (gFn_step _)

theorem yoeOf_mono {a b : Nat} (h : a ≤ b) : yoeOf a ≤ yoeOf b := by
  rw [yoeOf_eq, yoeOf_eq]
  exact Nat.div_le_div_right (gFn_mono h)

set_option maxRecDepth 10000 in
theorem yoeOf_year_start : ∀ y < 400, yoeOf (ysOf y) = y := by decide

set_option maxRecDepth 10000 in
theorem yoeOf_year_end : ∀ y < 400, yoeOf (ysOf (y + 1) - 1) = y := by decide

theorem ysOf_gap (y : Nat) : ysOf y + 1 ≤ ysOf (y + 1) ∧ ysOf (y + 1) ≤ ysOf y + 366 := by
  unfold ysOf; omega

/-- Every day-of-era below the last one lies in the day range of some
year-of-era. -/
theorem exists_year : ∀ doe, doe < 146096 →
    ∃ y, y < 400 ∧ ysOf y ≤ doe ∧ doe < ysOf (y + 1) := by
  intro doe
  induction doe with
  | zero =>
    intro _
    exact ⟨0, by norm_num, Nat.zero_le _, by unfold ysOf; omega⟩
  | succ n ih =>
    intro hn
    obtain ⟨y, hy, h1, h2⟩ := ih (Nat.lt_of_succ_lt hn)
    rcases Nat.lt_or_ge (n + 1) (ysOf (y + 1)) with h3 | h3
    · exact ⟨y, hy, Nat.le_succ_of_le h1, h3⟩
    · have heq : ysOf (y + 1) = n + 1 := Nat.le_antisymm h3 h2
      refine ⟨y + 1, ?_, Nat.le_of_eq heq, ?_⟩
      · rcases Nat.lt_or_ge (y + 1) 400 with h4 | h4
        · exact h4
        · exfalso
          have h5 : ysOf 400 ≤ ysOf (y + 1) := by
            have : (400 : Nat) ≤ y + 1 := h4
            unfold ysOf; omega
          have h6 : ysOf 400 = 146096 := by norm_num [ysOf]
          omega
      · have := (ysOf_gap (y + 1)).1
        omega

/-- `yoeOf` computes the correct year-of-era: its year's day range
contains the given day-of-era. -/
theorem yoeOf_correct (doe : Nat) (h : doe < 146097) :
    yoeOf doe ≤ 399 ∧ ysOf (yoeOf doe) ≤ doe ∧ doe ≤ ysOf (yoeOf doe) + 365 := by
  rcases Nat.lt_or_ge doe 146096 with h1 | h1
  · obtain ⟨y, hy, h2, h3⟩ := exists_year doe h1
    have hA : yoeOf (ysOf y) = y := yoeOf_year_start y hy
    have hB : yoeOf (ysOf (y + 1) - 1) = y := yoeOf_year_end y hy
    have hlow : y ≤ yoeOf doe := hA ▸ yoeOf_mono h2
    have hhigh : yoeOf doe ≤ y := by
      have h4 : doe ≤ ysOf (y + 1) - 1 := by omega
      exact hB ▸ yoeOf_mono h4
    have hyy : yoeOf doe = y := Nat.le_antisymm hhigh hlow
    have := (ysOf_gap y).2
    constructor
    · omega
    · rw [hyy]; omega
  · have h2 : doe = 146096 := by omega
    subst h2
    refine ⟨?_, ?_, ?_⟩ <;> decide

/-- `daysFromCivil` on an explicit record, with the `let`s resolved. -/
theorem daysFromCivil_mk (y : Int) (m d : Nat) :
    daysFromCivil ⟨y, m, d⟩ =
      (y - (if m ≤ 2 then 1 else 0)) / 400 * 146097
        + ((ysOf (((y - (if m ≤ 2 then 1 else 0)) % 400).toNat)
            + (153 * (if 2 < m then m - 3 else m + 9) + 2) / 5 : Nat) : Int)
        + (d : Int) - 1 - 719468 := rfl

/-- The civil conversions are mutually inverse on epoch day numbers. -/
theorem daysFromCivil_civilFromDays (z : Int) :
    daysFromCivil (civilFromDays z) = z := by
  have hlt : (0 : Int) < 146097 := by norm_num
  have hdm := Int.ediv_add_emod (z + 719468) 146097
  have hnn : 0 ≤ (z + 719468) % 146097 := Int.emod_nonneg _ (by norm_num)
  have hub : (z + 719468) % 146097 < 146097 := Int.emod_lt_of_pos _ hlt
  set era := (z + 719468) / 146097 with hera
  set doe := ((z + 719468) % 146097).toNat with hdoe
  have hdoeval : ((doe : Int)) = (z + 719468) % 146097 := Int.toNat_of_nonneg hnn
  have hdoelt : doe < 146097 := by omega
  obtain ⟨hy1, hy2, hy3⟩ := yoeOf_correct doe hdoelt
  have hdoy : doyOf doe = doe - ysOf (yoeOf doe) := rfl
  have hmp : mpOf doe = (5 * doyOf doe + 2) / 153 := rfl
  have hdom : domOf doe = doyOf doe - (153 * mpOf doe + 2) / 5 + 1 := rfl
  have hys : ysOf (yoeOf doe) = 365 * yoeOf doe + yoeOf doe / 4 - yoeOf doe / 100 := rfl
  show daysFromCivil
      { y := era * 400 + yoeOf doe + (if monthOf doe ≤ 2 then 1 else 0)
        m := monthOf doe, d := domOf doe } = z
  rw [daysFromCivil_mk]
  have h400a : (era * 400 + (yoeOf doe : Int)
      + (if monthOf doe ≤ 2 then 1 else 0)
      - (if monthOf doe ≤ 2 then 1 else 0)) / 400 = era := by
    rcases ite_eq_or_eq (monthOf doe ≤ 2) (1 : Int) 0 with h | h <;> rw [h] <;> omega
  have h400b : ((era * 400 + (yoeOf doe : Int)
      + (if monthOf doe ≤ 2 then 1 else 0)
      - (if monthOf doe ≤ 2 then 1 else 0)) % 400).toNat = yoeOf doe := by
    rcases ite_eq_or_eq (monthOf doe ≤ 2) (1 : Int) 0 with h | h <;> rw [h] <;> omega
  rw [h400a, h400b]
  have hmple : mpOf doe ≤ 11 := by rw [hmp]; omega
  rcases Nat.lt_or_ge (mpOf doe) 10 with hcase | hcase
  · have hm : monthOf doe = mpOf doe + 3 := by unfold monthOf; rw [if_pos hcase]
    rw [hm, if_pos (show 2 < mpOf doe + 3 by omega)]
    rw [hys]
    omega
  · have hm : monthOf doe = mpOf doe - 9 := by
      unfold monthOf; rw [if_neg (by omega)]
    rw [hm, if_neg (show ¬ 2 < mpOf doe - 9 by omega)]
    rw [hys]
    omega

/-- `d.setDate(d.getDate() + k)` advances the time value by exactly `k`
calendar days, for any fixed environment offset: the local-time round trip
cancels. -/
theorem jsSetDate_getDate (t tz k : Int) :
    jsSetDate t tz (jsGetDate t tz + k) = t + k * msPerDay := by
  have hr := daysFromCivil_civilFromDays ((t + tz * 60000) / msPerDay)
  have hdm := Int.ediv_add_emod (t + tz * 60000) msPerDay
  set c := civilFromDays ((t + tz * 60000) / msPerDay) with hc
  have h1 : daysFromCivil ⟨c.y, c.m, 1⟩
      = daysFromCivil ⟨c.y, c.m, c.d⟩ - (c.d : Int) + 1 := by
    rw [daysFromCivil_mk, daysFromCivil_mk]; omega
  have h2 : daysFromCivil ⟨c.y, c.m, c.d⟩ = (t + tz * 60000) / msPerDay := hr
  show (daysFromCivil ⟨c.y, c.m, 1⟩ + ((c.d : Int) + k - 1)) * msPerDay
      + (t + tz * 60000) % msPerDay - tz * 60000 = t + k * msPerDay
  rw [h1, h2]
  have hms : msPerDay = 86400000 := rfl
  rw [hms] at hdm ⊢
  ring_nf
  omega

/-! ## Parser-level helper lemmas -/

theorem dropWhile_idem (p : Char → Bool) (l : List Char) :
    (l.dropWhile p).dropWhile p = l.dropWhile p := by
  cases h : l.dropWhile p with
  | nil => rfl
  | cons c cs =>
    have hc : ¬ p c := by
      have := List.dropWhile_get_zero_not p l (by rw [h]; simp)
      simpa [h] using this
    simp [List.dropWhile_cons, hc]

theorem dropWhile_self_of_append (p : Char → Bool) (w x : List Char)
    (hu : (w ++ x).dropWhile p = w ++ x) : w.dropWhile p = w := by
  cases w with
  | nil => rfl
  | cons c w' =>
    rw [List.cons_append, List.dropWhile_cons] at hu
    by_cases hp : p c
    · rw [if_pos hp] at hu
      have h1 := (List.dropWhile_sublist (l := w' ++ x) (p := p)).length_le
      rw [hu] at h1
      simp at h1
    · rw [List.dropWhile_cons, if_neg hp]

theorem jsTrim_idem (l : List Char) : jsTrim (jsTrim l) = jsTrim l := by
  unfold jsTrim
  have hu := dropWhile_idem isJsSpace l
  generalize hgen : l.dropWhile isJsSpace = u at hu ⊢
  have hsplit : (u.reverse.dropWhile isJsSpace).reverse
      ++ (u.reverse.takeWhile isJsSpace).reverse = u := by
    rw [← List.reverse_append, List.takeWhile_append_dropWhile, List.reverse_reverse]
  have hwdrop : ((u.reverse.dropWhile isJsSpace).reverse).dropWhile isJsSpace
      = (u.reverse.dropWhile isJsSpace).reverse := by
    apply dropWhile_self_of_append isJsSpace _ ((u.reverse.takeWhile isJsSpace).reverse)
    rw [hsplit]; exact hu
  rw [hwdrop, List.reverse_reverse, dropWhile_idem]

theorem jsParseFloatDD_nonneg (tok : List Char) (q : ℚ)
    (h : jsParseFloatDD tok = some q) : 0 ≤ q := by
  unfold jsParseFloatDD at h
  repeat' split at h
  all_goals
    first
      | (simp only [Option.some.injEq] at h
         rw [← h, Rat.mkRat_eq_div, Int.ofNat_eq_coe]
         push_cast
         positivity)
      | exact absurd h (by simp)

/-- `lineEffect` with the `getDate`/`setDate` round trip cancelled
(`jsSetDate_getDate`): a timezone-free form. -/
def lineEffectU (t : Int) (l : List Char) (dayIndex : Int) : LineEffect :=
  if (jsTrim l).isEmpty then .skip
  else
    match matchDayLine (jsTrim l) with
    | some n => .setDay ((n : Int) - 1)
    | none =>
      match matchTaskLine (jsTrim l) with
      | some (desc, hours) =>
        if 0 ≤ dayIndex then
          match toISOdate (t + dayIndex * msPerDay) with
          | some ds =>
            .emit { task := ⟨jsTrim desc⟩
                    duration := jsParseFloatDD hours
                    date := ds }
          | none => .throwErr
        else .skip
      | none => .skip

/-- `lineEffect` does not depend on the environment offset. -/
theorem lineEffect_eq_U (t tz : Int) (l : List Char) (di : Int) :
    lineEffect t tz l di = lineEffectU t l di := by
  unfold lineEffect lineEffectU
  rw [jsSetDate_getDate]

/-- Advancing a time value by whole days advances its UTC civil date by
the same number of days. -/
theorem toISOdate_add_days (t : Int) (k : Int)
    (h : (t + k * msPerDay).natAbs ≤ 8640000000000000) :
    toISOdate (t + k * msPerDay)
      = some (formatCivil (civilFromDays (t / msPerDay + k))) := by
  unfold toISOdate
  rw [if_pos h]
  have hdiv : (t + k * msPerDay) / msPerDay = t / msPerDay + k := by
    have hms : msPerDay = 86400000 := rfl
    rw [hms]
    omega
  rw [hdiv]

/-- The line fold over `lineEffectU`. -/
def processLinesU (t : Int) : List (List Char) → Int → Option (List Entry)
  | [], _ => some []
  | l :: ls, dayIndex =>
    match lineEffectU t l dayIndex with
    | .skip => processLinesU t ls dayIndex
    | .setDay d => processLinesU t ls d
    | .emit e => (processLinesU t ls dayIndex).map (e :: ·)
    | .throwErr => none

/-- `processLines` does not depend on the environment offset: it agrees
with the timezone-free fold. -/
theorem processLines_eq_U (t tz : Int) (ls : List (List Char)) (di : Int) :
    processLines t tz ls di = processLinesU t ls di := by
  induction ls generalizing di with
  | nil => rfl
  | cons l ls ih =>
    rw [processLines, processLinesU, lineEffect_eq_U]
    cases lineEffectU t l di <;> simp only [ih]

/-- The `dayIndex` state after a list of lines. -/
def dayAfter : List (List Char) → Int → Int
  | [], di => di
  | l :: ls, di =>
    dayAfter ls
      (match matchDayLine (jsTrim l) with
       | some n => (n : Int) - 1
       | none => di)


/-- An empty trimmed line matches neither regex. -/
theorem matchDayLine_nil : matchDayLine [] = none := rfl

/-- If a line has no day-marker match, its effect leaves the state alone,
and the `dayAfter` step is the identity. -/
theorem lineEffect_cases (t tz : Int) (l : List Char) (di : Int) :
    (matchDayLine (jsTrim l) = none
      ∧ (lineEffect t tz l di = .skip
          ∨ (∃ e, lineEffect t tz l di = .emit e)
          ∨ lineEffect t tz l di = .throwErr))
    ∨ (∃ n, matchDayLine (jsTrim l) = some n
        ∧ lineEffect t tz l di = .setDay ((n : Int) - 1)) := by
  unfold lineEffect
  by_cases he : (jsTrim l).isEmpty
  · left
    refine ⟨?_, Or.inl (by simp [he])⟩
    have : jsTrim l = [] := by simpa using he
    rw [this, matchDayLine_nil]
  · cases hd : matchDayLine (jsTrim l) with
    | some n => exact Or.inr ⟨n, rfl, by simp [he, hd]⟩
    | none =>
      left
      refine ⟨rfl, ?_⟩
      cases ht : matchTaskLine (jsTrim l) with
      | none => exact Or.inl (by simp [he, hd, ht])
      | some pr =>
        obtain ⟨desc, hours⟩ := pr
        by_cases hdi : 0 ≤ di
        · cases hiso : toISOdate (jsSetDate t tz (jsGetDate t tz + di)) with
          | some ds =>
            exact Or.inr (Or.inl ⟨⟨⟨jsTrim desc⟩, jsParseFloatDD hours, ds⟩,
              by simp [he, hd, ht, hdi, hiso]⟩)
          | none =>
            exact Or.inr (Or.inr (by simp [he, hd, ht, hdi, hiso]))
        · exact Or.inl (by simp [he, hd, ht, hdi])

/-- Inversion of the emit case: an emitted entry comes from a task match
under a non-negative day index, with the date produced by `toISOdate` at
`t + dayIndex` days. -/
theorem lineEffect_emit_inv (t tz : Int) (l : List Char) (di : Int) (e : Entry)
    (h : lineEffect t tz l di = .emit e) :
    (∃ desc hours, e.task = ⟨jsTrim desc⟩ ∧ e.duration = jsParseFloatDD hours)
      ∧ 0 ≤ di ∧ toISOdate (t + di * msPerDay) = some e.date := by
  rw [lineEffect_eq_U] at h
  unfold lineEffectU at h
  repeat' split at h
  all_goals cases h
  rename_i hdi hds
  exact ⟨⟨_, _, rfl, rfl⟩, by assumption, by rw [hds]⟩

/-- Entries of a concatenation: the first block's entries, in order,
followed by the second block's entries computed from the carried state.
This is the order-preservation property of the fold. -/
theorem processLines_append (t tz : Int) (xs ys : List (List Char)) (di : Int) :
    processLines t tz (xs ++ ys) di
      = (processLines t tz xs di).bind
          (fun es => (processLines t tz ys (dayAfter xs di)).map (es ++ ·)) := by
  induction xs generalizing di with
  | nil =>
    rw [List.nil_append, processLines, dayAfter]
    cases processLines t tz ys di <;> simp
  | cons l xs ih =>
    rw [List.cons_append, processLines, processLines, dayAfter]
    rcases lineEffect_cases t tz l di with ⟨hd, heff⟩ | ⟨n, hd, heff⟩
    · simp only [hd]
      rcases heff with heff | ⟨e, heff⟩ | heff <;> rw [heff]
      · exact ih di
      · rw [ih di]
        cases processLines t tz xs di <;>
          cases processLines t tz ys (dayAfter xs di) <;> simp
      · rfl
    · rw [heff]
      simp only [hd]
      exact ih _

/-- With no day-marker line anywhere and a negative state, every line is
skipped. -/
theorem processLines_no_day (t tz : Int) (ls : List (List Char))
    (h : ∀ l ∈ ls, matchDayLine (jsTrim l) = none) (di : Int) (hdi : di < 0) :
    processLines t tz ls di = some [] := by
  induction ls with
  | nil => rfl
  | cons l ls ih =>
    have hd := h l (List.mem_cons_self l ls)
    have heff : lineEffect t tz l di = .skip := by
      unfold lineEffect
      by_cases he : (jsTrim l).isEmpty
      · simp [he]
      · cases ht : matchTaskLine (jsTrim l) with
        | none => simp [he, hd, ht]
        | some pr =>
          obtain ⟨desc, hours⟩ := pr
          simp [he, hd, ht, show ¬ 0 ≤ di by omega]
    rw [processLines, heff]
    exact ih (fun l hl => h l (List.mem_cons_of_mem _ hl))

/-- With no line matching either pattern, the parse yields no entries
regardless of the state. -/
theorem processLines_no_match (t tz : Int) (ls : List (List Char))
    (h : ∀ l ∈ ls, matchDayLine (jsTrim l) = none ∧ matchTaskLine (jsTrim l) = none)
    (di : Int) : processLines t tz ls di = some [] := by
  induction ls generalizing di with
  | nil => rfl
  | cons l ls ih =>
    obtain ⟨hd, ht⟩ := h l (List.mem_cons_self l ls)
    have heff : lineEffect t tz l di = .skip := by
      unfold lineEffect
      by_cases he : (jsTrim l).isEmpty
      · simp [he]
      · simp [he, hd, ht]
    rw [processLines, heff]
    exact ih (fun l hl => h l (List.mem_cons_of_mem _ hl)) di

/-- Every entry a parse emits has a trimmed task, a `NaN`-or-non-negative
duration, and a date that is the UTC civil date of `t` advanced by the
(non-negative) day index in effect. -/
theorem processLines_entry_inv (t tz : Int) (ls : List (List Char)) (di : Int)
    (es : List Entry) (h : processLines t tz ls di = some es) :
    ∀ e ∈ es, e.task.data = jsTrim e.task.data
      ∧ (∀ q, e.duration = some q → 0 ≤ q)
      ∧ (∃ k : Int, 0 ≤ k
          ∧ e.date = formatCivil (civilFromDays (t / msPerDay + k))) := by
  induction ls generalizing di es with
  | nil =>
    rw [processLines] at h
    injection h with h
    subst h
    intro e he
    cases he
  | cons l ls ih =>
    rw [processLines] at h
    cases heff : lineEffect t tz l di <;> rw [heff] at h
    case skip => exact ih di es h
    case setDay d => exact ih d es h
    case throwErr => cases h
    case emit e0 =>
      cases hrec : processLines t tz ls di <;> rw [hrec] at h
      case none => cases h
      case some es' =>
        simp only [Option.map_some', Option.some.injEq] at h
        subst h
        intro e he
        rcases List.mem_cons.mp he with he | he
        · subst he
          obtain ⟨⟨desc, hours, htask, hdur⟩, hdi, hdate⟩ :=
            lineEffect_emit_inv t tz l di e heff
          refine ⟨?_, ?_, di, hdi, ?_⟩
          · rw [htask]
            exact (jsTrim_idem desc).symm
          · intro q hq
            exact jsParseFloatDD_nonneg hours q (hdur ▸ hq)
          · by_cases hok : (t + di * msPerDay).natAbs ≤ 8640000000000000
            · rw [toISOdate_add_days t di hok] at hdate
              injection hdate with hdate
              exact hdate.symm
            · unfold toISOdate at hdate
              rw [if_neg hok] at hdate
              cases hdate
        · exact ih di es' hrec e he

/-! ## Character-class facts for symbolic lines -/

theorem isDigit_toNat (c : Char) (h : c.isDigit = true) :
    48 ≤ c.val.toNat ∧ c.val.toNat ≤ 57 := by
  unfold Char.isDigit at h
  simp only [Bool.and_eq_true, decide_eq_true_eq] at h
  exact ⟨h.1, h.2⟩

/-- A decimal digit is not ECMAScript whitespace. -/
theorem isJsSpace_of_digit (c : Char) (h : c.isDigit = true) : isJsSpace c = false := by
  obtain ⟨h48, h57⟩ := isDigit_toNat c h
  have key : ∀ (k : UInt32), k.toNat ≠ c.val.toNat → (c.val = k) = False :=
    fun k hk => eq_false (fun he => hk (by rw [he]))
  have keyLe : ((0x2000 : UInt32) ≤ c.val) = False :=
    eq_false (fun hle => by
      have hx : (8192 : Nat) ≤ c.val.toNat := hle
      omega)
  simp [isJsSpace, keyLe,
    key 32 (by rw [show ((32 : UInt32)).toNat = 32 from rfl]; omega),
    key 9 (by rw [show ((9 : UInt32)).toNat = 9 from rfl]; omega),
    key 10 (by rw [show ((10 : UInt32)).toNat = 10 from rfl]; omega),
    key 11 (by rw [show ((11 : UInt32)).toNat = 11 from rfl]; omega),
    key 12 (by rw [show ((12 : UInt32)).toNat = 12 from rfl]; omega),
    key 13 (by rw [show ((13 : UInt32)).toNat = 13 from rfl]; omega),
    key 160 (by rw [show ((160 : UInt32)).toNat = 160 from rfl]; omega),
    key 0x1680 (by rw [show ((0x1680 : UInt32)).toNat = 5760 from rfl]; omega),
    key 0x2028 (by rw [show ((0x2028 : UInt32)).toNat = 8232 from rfl]; omega),
    key 0x2029 (by rw [show ((0x2029 : UInt32)).toNat = 8233 from rfl]; omega),
    key 0x202F (by rw [show ((0x202F : UInt32)).toNat = 8239 from rfl]; omega),
    key 0x205F (by rw [show ((0x205F : UInt32)).toNat = 8287 from rfl]; omega),
    key 0x3000 (by rw [show ((0x3000 : UInt32)).toNat = 12288 from rfl]; omega),
    key 0xFEFF (by rw [show ((0xFEFF : UInt32)).toNat = 65279 from rfl]; omega)]

/-- A decimal digit is not a line separator. -/
theorem digit_ne_break (c : Char) (h : c.isDigit = true) :
    c ≠ '\n' ∧ c ≠ '\r' := by
  obtain ⟨h48, h57⟩ := isDigit_toNat c h
  constructor <;> intro he <;> subst he <;>
    revert h48 <;> decide

/-- A list whose characters are all non-whitespace is already trimmed. -/
theorem jsTrim_eq_self (l : List Char) (h : ∀ c ∈ l, isJsSpace c = false) :
    jsTrim l = l := by
  unfold jsTrim
  have h1 : l.dropWhile isJsSpace = l := by
    cases l with
    | nil => rfl
    | cons c cs => simp [List.dropWhile_cons, h c (List.mem_cons_self c cs)]
  rw [h1]
  have h2 : l.reverse.dropWhile isJsSpace = l.reverse := by
    cases hr : l.reverse with
    | nil => rfl
    | cons c cs =>
      have hc : c ∈ l := by
        rw [← List.mem_reverse, hr]
        exact List.mem_cons_self c cs
      simp [List.dropWhile_cons, h c hc]
  rw [h2, List.reverse_reverse]

theorem takeWhile_append_stop (p : Char → Bool) (ds : List Char) (x : Char)
    (r : List Char) (hds : ∀ c ∈ ds, p c = true) (hx : p x = false) :
    (ds ++ x :: r).takeWhile p = ds := by
  induction ds with
  | nil => simp [List.takeWhile_cons, hx]
  | cons d ds ih =>
    simp [List.takeWhile_cons, hds d (List.mem_cons_self d ds),
      ih (fun c hc => hds c (List.mem_cons_of_mem d hc))]

theorem takeWhile_all (p : Char → Bool) (ds : List Char)
    (h : ∀ c ∈ ds, p c = true) : ds.takeWhile p = ds := by
  induction ds with
  | nil => rfl
  | cons d ds ih =>
    simp [List.takeWhile_cons, h d (List.mem_cons_self d ds),
      ih (fun c hc => h c (List.mem_cons_of_mem d hc))]

/-- The day regex on a line `DAY<digits><rest>` captures exactly the
digits when the rest does not begin with a digit. -/
theorem matchDayLine_digits (ds : List Char) (r : List Char) (hne : ds ≠ [])
    (hdig : ∀ c ∈ ds, c.isDigit = true)
    (hr : ∀ c, r.head? = some c → c.isDigit = false) :
    matchDayLine ('D' :: 'A' :: 'Y' :: (ds ++ r)) = some (natOfDigits ds) := by
  have hdrop : (ds ++ r).dropWhile isJsSpace = ds ++ r := by
    cases ds with
    | nil => exact absurd rfl hne
    | cons d0 ds' =>
      rw [List.cons_append, List.dropWhile_cons]
      simp [isJsSpace_of_digit d0 (hdig d0 (List.mem_cons_self _ _))]
  have htake : (ds ++ r).takeWhile Char.isDigit = ds := by
    cases r with
    | nil =>
      rw [List.append_nil]
      exact takeWhile_all _ ds hdig
    | cons x r' => exact takeWhile_append_stop _ ds x r' hdig (hr x rfl)
  have hempty : ds.isEmpty = false := by
    cases ds with
    | nil => exact absurd rfl hne
    | cons _ _ => rfl
  have hred : matchDayLine ('D' :: 'A' :: 'Y' :: (ds ++ r))
      = (if (((ds ++ r).dropWhile isJsSpace).takeWhile Char.isDigit).isEmpty = true
         then none
         else some (natOfDigits (((ds ++ r).dropWhile isJsSpace).takeWhile Char.isDigit))) := rfl
  rw [hred, hdrop, htake, hempty]
  simp

theorem splitLines_nl (ys : List Char) :
    splitLines ('\n' :: ys) = [] :: splitLines ys := rfl

/-- A character that is not part of a line break extends the first line. -/
theorem splitLines_cons_safe (c : Char) (rest : List Char)
    (h1 : c ≠ '\n') (h2 : c ≠ '\r') :
    splitLines (c :: rest) = consHead c (splitLines rest) := by
  rw [splitLines.eq_def]
  split
  · simp_all
  · rename_i heq
    injection heq with heq1 _
    exact absurd heq1 h2
  · rename_i c' rest' heq
    injection heq with heq1 heq2
    subst heq1
    subst heq2
    rw [if_neg h1]

/-- Splitting a text whose first line contains no line breaks. -/
theorem splitLines_append_line (xs ys : List Char)
    (h : ∀ c ∈ xs, c ≠ '\n' ∧ c ≠ '\r') :
    splitLines (xs ++ '\n' :: ys) = xs :: splitLines ys := by
  induction xs with
  | nil => rw [List.nil_append, splitLines_nl]
  | cons x xs ih =>
    obtain ⟨hx1, hx2⟩ := h x (List.mem_cons_self x xs)
    rw [List.cons_append, splitLines_cons_safe x _ hx1 hx2,
      ih (fun c hc => h c (List.mem_cons_of_mem x hc))]
    rfl

/-! ## The claims -/

/-- A definition following the specification's words, for comparison with
the code: "the `date` field is the reference date's own calendar date
advanced by `currentDayIndex` days, formatted as `YYYY-MM-DD` from that
date's own calendar fields (not a different timezone)".  A `Date`'s own
calendar fields (`getFullYear`/`getMonth`/`getDate`) are its local fields,
so this is the local civil date advanced by the day index. -/
def specDateOwnFields (t tz : Int) (k : Int) : String :=
  formatCivil (civilFromDays (daysFromCivil (jsLocalCivil t tz) + k))

/-- C1: parsing the end-to-end scenario text with reference date
2025-05-22 yields exactly the three entries
`[{Read chapter 1, 2, 2025-05-22}, {Practice problems, 1.5, 2025-05-22},
{Review notes, 1, 2025-05-23}]`, in that order. -/
theorem c1_end_to_end :
    parsePlanText
        "DAY1:\n- Read chapter 1 @ 2\n- Practice problems @ 1.5\nDAY2:\n- Review notes @ 1"
        (daysFromCivil ⟨2025, 5, 22⟩ * msPerDay) 0
      = some [⟨"Read chapter 1", some 2, "2025-05-22"⟩,
              ⟨"Practice problems", some (3/2 : ℚ), "2025-05-22"⟩,
              ⟨"Review notes", some 1, "2025-05-23"⟩] := by
  have h : parsePlanText
        "DAY1:\n- Read chapter 1 @ 2\n- Practice problems @ 1.5\nDAY2:\n- Review notes @ 1"
        (daysFromCivil ⟨2025, 5, 22⟩ * msPerDay) 0
      = some [⟨"Read chapter 1", some (mkRat 2 1), "2025-05-22"⟩,
              ⟨"Practice problems", some (mkRat 3 2), "2025-05-22"⟩,
              ⟨"Review notes", some (mkRat 1 1), "2025-05-23"⟩] := by decide
  rw [h]
  norm_num [Rat.mkRat_eq_div]

/-- C2 (counterexample): with environment offset +60 minutes and reference
time 2025-05-22T23:30Z — whose own (local) calendar date is 2025-05-23 —
the emitted date is "2025-05-22": `toISOdate` formats the UTC fields, not
the date's own calendar fields, so the output does depend on the reference
date's time-of-day relative to UTC. -/
theorem c2_counterexample :
    parsePlanText "DAY1:\n- T @ 1"
        (daysFromCivil ⟨2025, 5, 22⟩ * msPerDay + 84600000) 60
      = some [⟨"T", some 1, "2025-05-22"⟩]
    ∧ specDateOwnFields
        (daysFromCivil ⟨2025, 5, 22⟩ * msPerDay + 84600000) 60 0
      = "2025-05-23" := by
  constructor <;> decide

/-- C2 (amended): every emitted date is the reference time value's UTC
calendar date advanced by the (non-negative) day index in effect; it thus
depends only on `t / msPerDay`, so it is insensitive to time-of-day within
the same UTC day — but it is the UTC date, not the date built from the
reference `Date`'s own local calendar fields. -/
theorem c2_date_is_utc (text : String) (t tz : Int) (es : List Entry)
    (h : parsePlanText text t tz = some es) (e : Entry) (he : e ∈ es) :
    ∃ k : Int, 0 ≤ k
      ∧ e.date = formatCivil (civilFromDays (t / msPerDay + k)) :=
  (processLines_entry_inv t tz _ (-1) es h e he).2.2

theorem c2_date_is_utc_witness :
    ∃ k : Int, 0 ≤ k
      ∧ (Entry.mk "T" (some 1) "1970-01-01").date
          = formatCivil (civilFromDays ((0 : Int) / msPerDay + k)) :=
  c2_date_is_utc "DAY1:\n- T @ 1" 0 0 [⟨"T", some 1, "1970-01-01"⟩]
    (by decide) ⟨"T", some 1, "1970-01-01"⟩ (by decide)

/-- C3 (counterexample): the line "- @ 2" after a day marker emits an
entry whose task is the empty string: the lazy description capture can
match a single whitespace character, which trims to "". -/
theorem c3_counterexample :
    parsePlanText "DAY1:\n- @ 2" 0 0
      = some [⟨"", some 2, "1970-01-01"⟩] := by decide

/-- C3 (amended): every emitted task is trimmed (equal to its own trim),
but it can be the empty string when the description capture is
whitespace-only. -/
theorem c3_task_trimmed (text : String) (t tz : Int) (es : List Entry)
    (h : parsePlanText text t tz = some es) (e : Entry) (he : e ∈ es) :
    e.task.data = jsTrim e.task.data :=
  (processLines_entry_inv t tz _ (-1) es h e he).1

theorem c3_task_trimmed_witness :
    (Entry.mk "T" (some 1) "1970-01-01").task.data
      = jsTrim (Entry.mk "T" (some 1) "1970-01-01").task.data :=
  c3_task_trimmed "DAY1:\n- T @ 1" 0 0 [⟨"T", some 1, "1970-01-01"⟩]
    (by decide) ⟨"T", some 1, "1970-01-01"⟩ (by decide)

/-- C4 (counterexample): the hours class `[\d\.]+` also matches a bare
dot, `parseFloat(".")` is `NaN`, and the entry is pushed anyway: the
parser does emit a `NaN` duration instead of dropping the line. -/
theorem c4_counterexample :
    parsePlanText "DAY1:\n- T @ ." 0 0
      = some [⟨"T", none, "1970-01-01"⟩] := by decide

/-- C4 (amended): a duration that parses as a number is non-negative, but
the hours token may consist of dots only, in which case the `NaN`
duration (modelled as `none`) is emitted, not dropped. -/
theorem c4_duration_nonneg (text : String) (t tz : Int) (es : List Entry)
    (h : parsePlanText text t tz = some es) (e : Entry) (he : e ∈ es)
    (q : ℚ) (hq : e.duration = some q) : 0 ≤ q :=
  (processLines_entry_inv t tz _ (-1) es h e he).2.1 q hq

theorem c4_duration_nonneg_witness : (0 : ℚ) ≤ 2 :=
  c4_duration_nonneg "DAY1:\n- T @ 2" 0 0 [⟨"T", some 2, "1970-01-01"⟩]
    (by decide) ⟨"T", some 2, "1970-01-01"⟩ (by decide) 2 rfl

/-- C5: for every reference time value, environment offset, and day index
`k ≥ 0`, a task line whose most recent marker is `DAY{k+1}` (digits `ds`
with value `k+1`) is stamped with the reference's UTC calendar date
advanced by `k` days — the date arithmetic goes through epoch day numbers,
so month, leap-February and year boundaries roll over correctly
(witnessed at 2024-02-28 + 2 = 2024-03-01). -/
theorem c5_day_offset (t tz : Int) (k : Nat) (ds : List Char)
    (hne : ds ≠ []) (hdig : ∀ c ∈ ds, c.isDigit = true)
    (hval : natOfDigits ds = k + 1)
    (hrange : (t + (k : Int) * msPerDay).natAbs ≤ 8640000000000000) :
    parsePlanText
        ⟨'D' :: 'A' :: 'Y' :: (ds ++ ':' :: '\n' :: ['-', ' ', 'T', ' ', '@', ' ', '1'])⟩ t tz
      = some [⟨"T", some 1,
          formatCivil (civilFromDays
            (daysFromCivil (civilFromDays (t / msPerDay)) + k))⟩] := by
  have hbreak : ∀ c ∈ ds, c ≠ '\n' ∧ c ≠ '\r' :=
    fun c hc => digit_ne_break c (hdig c hc)
  have hline1 : ∀ c ∈ ('D' :: 'A' :: 'Y' :: (ds ++ [':'])), c ≠ '\n' ∧ c ≠ '\r' := by
    intro c hc
    simp only [List.mem_cons, List.mem_append, List.not_mem_nil, or_false] at hc
    rcases hc with rfl | rfl | rfl | hc | rfl
    · exact ⟨by decide, by decide⟩
    · exact ⟨by decide, by decide⟩
    · exact ⟨by decide, by decide⟩
    · exact hbreak c hc
    · exact ⟨by decide, by decide⟩
  have hsplit : splitLines ('D' :: 'A' :: 'Y' :: (ds ++ ':' :: '\n' :: ['-', ' ', 'T', ' ', '@', ' ', '1'])) =
      ('D' :: 'A' :: 'Y' :: (ds ++ [':'])) :: [['-', ' ', 'T', ' ', '@', ' ', '1']] := by
    have hre : 'D' :: 'A' :: 'Y' :: (ds ++ ':' :: '\n' :: ['-', ' ', 'T', ' ', '@', ' ', '1'])
        = ('D' :: 'A' :: 'Y' :: (ds ++ [':'])) ++ '\n' :: ['-', ' ', 'T', ' ', '@', ' ', '1'] := by
      simp
    rw [hre, splitLines_append_line _ _ hline1]
    rfl
  have htrim1 : jsTrim ('D' :: 'A' :: 'Y' :: (ds ++ [':'])) = 'D' :: 'A' :: 'Y' :: (ds ++ [':']) := by
    apply jsTrim_eq_self
    intro c hc
    simp only [List.mem_cons, List.mem_append, List.not_mem_nil, or_false] at hc
    rcases hc with rfl | rfl | rfl | hc | rfl
    · decide
    · decide
    · decide
    · exact isJsSpace_of_digit c (hdig c hc)
    · decide
  have hday : matchDayLine (jsTrim ('D' :: 'A' :: 'Y' :: (ds ++ [':']))) = some (k + 1) := by
    rw [htrim1, matchDayLine_digits ds [':'] hne hdig
      (by intro c hc; injection hc with hc; subst hc; decide), hval]
  have hday' : matchDayLine ('D' :: 'A' :: 'Y' :: (ds ++ [':'])) = some (k + 1) := by
    rw [← htrim1]; exact hday
  have heff1 : lineEffectU t ('D' :: 'A' :: 'Y' :: (ds ++ [':'])) (-1) = .setDay (k : Int) := by
    unfold lineEffectU
    rw [htrim1]
    simp only [List.isEmpty_cons, Bool.false_eq_true, if_false, hday']
    congr 1
    push_cast
    ring
  have heff2 : lineEffectU t ['-', ' ', 'T', ' ', '@', ' ', '1'] (k : Int)
      = .emit ⟨"T", some (mkRat 1 1), formatCivil (civilFromDays (t / msPerDay + k))⟩ := by
    unfold lineEffectU
    rw [show jsTrim ['-', ' ', 'T', ' ', '@', ' ', '1'] = ['-', ' ', 'T', ' ', '@', ' ', '1'] from rfl]
    simp only [List.isEmpty_cons, Bool.false_eq_true, if_false,
      show matchDayLine ['-', ' ', 'T', ' ', '@', ' ', '1'] = none from rfl,
      show matchTaskLine ['-', ' ', 'T', ' ', '@', ' ', '1'] = some (['T'], ['1']) from rfl]
    rw [if_pos (by exact_mod_cast Nat.zero_le k), toISOdate_add_days t k hrange]
    rfl
  have hstep1 : processLinesU t
      [('D' :: 'A' :: 'Y' :: (ds ++ [':'])), ['-', ' ', 'T', ' ', '@', ' ', '1']] (-1)
      = processLinesU t [['-', ' ', 'T', ' ', '@', ' ', '1']] (k : Int) := by
    rw [processLinesU, heff1]
  have hstep2 : processLinesU t [['-', ' ', 'T', ' ', '@', ' ', '1']] (k : Int)
      = some [⟨"T", some (mkRat 1 1), formatCivil (civilFromDays (t / msPerDay + k))⟩] := by
    rw [processLinesU, heff2]
    rfl
  unfold parsePlanText
  rw [show (⟨'D' :: 'A' :: 'Y' :: (ds ++ ':' :: '\n' :: ['-', ' ', 'T', ' ', '@', ' ', '1'])⟩ : String).data
      = 'D' :: 'A' :: 'Y' :: (ds ++ ':' :: '\n' :: ['-', ' ', 'T', ' ', '@', ' ', '1']) from rfl]
  rw [hsplit, processLines_eq_U, hstep1, hstep2, daysFromCivil_civilFromDays]
  norm_num [Rat.mkRat_eq_div]

theorem c5_day_offset_witness :
    parsePlanText
        ⟨'D' :: 'A' :: 'Y' :: (['3'] ++ ':' :: '\n' :: ['-', ' ', 'T', ' ', '@', ' ', '1'])⟩
        (daysFromCivil ⟨2024, 2, 28⟩ * msPerDay) 0
      = some [⟨"T", some 1, "2024-03-01"⟩] := by
  have h := c5_day_offset (daysFromCivil ⟨2024, 2, 28⟩ * msPerDay) 0 2 ['3']
    (by decide) (by decide) (by decide) (by decide)
  refine h.trans ?_
  have : formatCivil (civilFromDays
      (daysFromCivil (civilFromDays ((daysFromCivil ⟨2024, 2, 28⟩ * msPerDay) / msPerDay)) + (2 : Nat)))
      = "2024-03-01" := by decide
  rw [this]

/-- C6: a task line before any day marker produces no entry: if no line
of the input matches the day-marker pattern, the parse yields the empty
sequence (task-pattern lines seen while the day index is still the `-1`
sentinel are silently discarded); in particular "- Study @ 2" alone
parses to `[]`. -/
theorem c6_task_before_day (text : String) (t tz : Int)
    (h : ∀ l ∈ splitLines text.data, matchDayLine (jsTrim l) = none) :
    parsePlanText text t tz = some [] :=
  processLines_no_day t tz _ h (-1) (by norm_num)

theorem c6_task_before_day_witness :
    parsePlanText "- Study @ 2" 0 0 = some [] :=
  c6_task_before_day "- Study @ 2" 0 0 (by decide)

/-- C7: output order equals source line order — the entries of a
concatenation are the first block's entries followed by the second
block's, with the day state carried across, and no re-sorting or
deduplication — and a `DAY2` section before a `DAY1` section yields the
day-index-1 entry (date `+1` day) before the day-index-0 entry. -/
theorem c7_order_literal :
    (∀ (t tz : Int) (xs ys : List (List Char)) (di : Int),
      processLines t tz (xs ++ ys) di
        = (processLines t tz xs di).bind
            (fun es => (processLines t tz ys (dayAfter xs di)).map (es ++ ·)))
    ∧ parsePlanText "DAY2:\n- A @ 1\nDAY1:\n- B @ 2"
        (daysFromCivil ⟨2025, 5, 22⟩ * msPerDay) 0
      = some [⟨"A", some 1, "2025-05-23"⟩, ⟨"B", some 2, "2025-05-22"⟩] := by
  constructor
  · exact processLines_append
  · have h : parsePlanText "DAY2:\n- A @ 1\nDAY1:\n- B @ 2"
        (daysFromCivil ⟨2025, 5, 22⟩ * msPerDay) 0
        = some [⟨"A", some (mkRat 1 1), "2025-05-23"⟩,
                ⟨"B", some (mkRat 2 1), "2025-05-22"⟩] := by decide
    rw [h]
    norm_num [Rat.mkRat_eq_div]

/-- C8 (counterexample): the parser is not total: a day marker with a huge
day number pushes the computed date outside the representable `Date`
range, `toISOString` raises a `RangeError` (modelled as `none`), so the
call throws instead of returning a sequence. -/
theorem c8_counterexample :
    parsePlanText "DAY200000000:\n- T @ 1"
      (daysFromCivil ⟨2025, 5, 22⟩ * msPerDay) 0 = none := by decide

/-- C8 (amended): on input in which no line matches either pattern, the
parse returns the empty sequence rather than an error — the only error
the function can raise is the `RangeError` of the counterexample; the
garbage scenario "hello world\nnot a task\n" yields `[]`. -/
theorem c8_garbage_empty (text : String) (t tz : Int)
    (h : ∀ l ∈ splitLines text.data,
      matchDayLine (jsTrim l) = none ∧ matchTaskLine (jsTrim l) = none) :
    parsePlanText text t tz = some [] :=
  processLines_no_match t tz _ h (-1)

theorem c8_garbage_empty_witness :
    parsePlanText "hello world\nnot a task\n" 0 0 = some [] :=
  c8_garbage_empty "hello world\nnot a task\n" 0 0 (by decide)

/-- C9: the parse is a deterministic pure function of the text and the
reference time value: in the fixed-offset model it does not even depend on
the environment timezone offset (the only ambient state in sight), since
the `getDate`/`setDate` round trip cancels the offset and `toISOString`
is UTC-only. -/
theorem c9_pure (text : String) (t tz₁ tz₂ : Int) :
    parsePlanText text t tz₁ = parsePlanText text t tz₂ := by
  unfold parsePlanText
  rw [processLines_eq_U, processLines_eq_U]

/-- C10: a line "DAY 0" sets the day index to `0 - 1 = -1`, which is the
"no current day" sentinel: the state after it is exactly the initial one
regardless of any earlier valid markers, and subsequent task lines are
dropped as long as no later marker appears. -/
theorem c10_day_zero :
    (∀ (t tz di : Int) (rest : List (List Char)),
      processLines t tz (['D', 'A', 'Y', ' ', '0'] :: rest) di
        = processLines t tz rest (-1))
    ∧ (∀ (t tz di : Int) (rest : List (List Char)),
        (∀ l ∈ rest, matchDayLine (jsTrim l) = none) →
        processLines t tz (['D', 'A', 'Y', ' ', '0'] :: rest) di = some []) := by
  have hstep : ∀ (t tz di : Int) (rest : List (List Char)),
      processLines t tz (['D', 'A', 'Y', ' ', '0'] :: rest) di
        = processLines t tz rest (-1) := by
    intro t tz di rest
    have heff : lineEffect t tz ['D', 'A', 'Y', ' ', '0'] di = .setDay (-1) := by
      unfold lineEffect
      simp only [show jsTrim ['D', 'A', 'Y', ' ', '0'] = ['D', 'A', 'Y', ' ', '0'] from rfl,
        show matchDayLine ['D', 'A', 'Y', ' ', '0'] = some 0 from rfl,
        List.isEmpty_cons, Bool.false_eq_true, if_false]
      rfl
    rw [processLines, heff]
  exact ⟨hstep, fun t tz di rest h =>
    (hstep t tz di rest).trans (processLines_no_day t tz rest h (-1) (by norm_num))⟩

theorem c10_day_zero_witness :
    processLines 0 0 [['D', 'A', 'Y', ' ', '0'], ['-', ' ', 'B', ' ', '@', ' ', '2']] 5
        = processLines 0 0 [['-', ' ', 'B', ' ', '@', ' ', '2']] (-1)
    ∧ processLines 0 0 [['D', 'A', 'Y', ' ', '0'], ['-', ' ', 'B', ' ', '@', ' ', '2']] 5
        = some [] :=
  ⟨c10_day_zero.1 0 0 5 [['-', ' ', 'B', ' ', '@', ' ', '2']],
   c10_day_zero.2 0 0 5 [['-', ' ', 'B', ' ', '@', ' ', '2']] (by decide)⟩
